import Mathlib

/-!
Shallow embedding of the asset core of eocsio.cdt (`asset.hpp`):
the `asset` value type with checked arithmetic, the `extended_asset`
wrapper with an ownership gate, decimal rendering and the binary
serialization contract.  Machine integers are modelled as `Int` with
explicit two's-complement wrapping where the C++ code can wrap.
In-place operators are modelled at the memory level: each returns the
receiver's post-state together with an optional error, mirroring the
C++ execution where `lemon::check` aborts the whole invocation after
any earlier statements have already run.
-/

deriving instance DecidableEq for Except

namespace Eocs

/-- Error taxonomy of the asset core: each `lemon::check` message is mapped
to the corresponding error class. -/
inductive Err where
  | rangeError
  | invalidSymbol
  | symbolMismatch
  | ownershipMismatch
  | divideByZero
  | overflow
deriving DecidableEq

/-- Two's-complement wrap of an integer into the signed 64-bit range,
modelling what native `int64_t` arithmetic does on overflow. -/
def wrap64 (x : Int) : Int := (x + 2 ^ 63) % 2 ^ 64 - 2 ^ 63

/-- Two's-complement wrap into the signed 128-bit range, modelling
`int128_t` arithmetic. -/
def wrap128 (x : Int) : Int := (x + 2 ^ 127) % 2 ^ 128 - 2 ^ 127

/-- The smallest `int64_t` value, `std::numeric_limits<int64_t>::min()`. -/
def int64Min : Int := -(2 ^ 63)

/-- Modelled from the spec: `symbol.hpp` is not under `src/`.  A symbol is a
single 8-byte little-endian word: the precision occupies the lowest byte and
the up-to-7 code characters occupy ascending higher bytes, unused trailing
slots being zero. -/
structure symbol where
  value : Nat
deriving DecidableEq

/-- Byte `i` (little-endian) of a packed word. -/
def byteAt (v i : Nat) : Nat := v / 256 ^ i % 256

/-- Modelled from the spec: the precision is the lowest byte of the word. -/
def symbol.precision (s : symbol) : Nat := s.value % 256

/-- Modelled from the spec: the code characters are bytes 1 to 7 of the word. -/
def symbol.codeBytes (s : symbol) : List Nat :=
  [byteAt s.value 1, byteAt s.value 2, byteAt s.value 3, byteAt s.value 4,
   byteAt s.value 5, byteAt s.value 6, byteAt s.value 7]

/-- Modelled from the spec: a valid code slot list is a non-empty run of
uppercase letters followed only by zero slots. -/
def validCodeTail : List Nat → Bool
  | [] => true
  | b :: rest =>
      if b = 0 then rest.all (fun c => c = 0)
      else decide (65 ≤ b ∧ b ≤ 90) && validCodeTail rest

/-- Modelled from the spec: `symbol::is_valid` — the word fits in 8 bytes,
the precision is at most 18, and the code is a non-empty run of 1 to 7
uppercase letters with zeroed trailing slots. -/
def symbol.is_valid (s : symbol) : Bool :=
  decide (s.value < 2 ^ 64) && decide (s.precision ≤ 18) &&
    decide (byteAt s.value 1 ≠ 0) && validCodeTail s.codeBytes

/-- Modelled from the spec: `symbol.code().to_string()` — the code characters
up to the first zero slot, as a string. -/
def codeChars : List Nat → List Char
  | [] => []
  | b :: rest => if b = 0 then [] else Char.ofNat b :: codeChars rest

/-- The code of a symbol as a string. -/
def symbol.codeString (s : symbol) : String := String.mk (codeChars s.codeBytes)

/-- An account identity (`name`), an 8-byte word; only its identity matters
to the asset core. -/
structure name where
  value : Nat
deriving DecidableEq

/-- The `asset` struct: a signed 64-bit amount and a symbol. -/
structure asset where
  amount : Int
  symbol : symbol
deriving DecidableEq

namespace asset

/-- `asset::max_amount = (1LL << 62) - 1`. -/
def max_amount : Int := 2 ^ 62 - 1

/-- `asset::is_amount_within_range`: `-max_amount <= amount && amount <= max_amount`. -/
def is_amount_within_range (x : asset) : Bool :=
  decide (-max_amount ≤ x.amount ∧ x.amount ≤ max_amount)

/-- `asset::is_valid`: amount within range and symbol valid. -/
def is_valid (x : asset) : Bool :=
  x.is_amount_within_range && x.symbol.is_valid

/-- The checked constructor `asset::asset(int64_t a, symbol s)`: stores the
fields, then checks the amount range, then checks symbol validity. -/
def construct (a : Int) (s : Eocs.symbol) : Except Err asset :=
  let x : asset := ⟨a, s⟩
  if x.is_amount_within_range then
    if s.is_valid then .ok x else .error .invalidSymbol
  else .error .rangeError

/-- `asset::set_amount(int64_t a)`: writes the new amount into the receiver,
then checks the range.  Returns the receiver's memory post-state and the
error, if any. -/
def set_amount (x : asset) (a : Int) : asset × Option Err :=
  let x1 : asset := { x with amount := a }
  (x1, if x1.is_amount_within_range then none else some .rangeError)

/-- Unary `asset::operator-`: copies the asset and negates the amount
(native 64-bit negation), with no range check. -/
def negAsset (x : asset) : asset := { x with amount := wrap64 (-x.amount) }

/-- `asset::operator+=`: checks the symbols match, then adds the amounts with
native 64-bit arithmetic, then checks the result range.  Returns the memory
post-state and the error, if any. -/
def addAssign (x a : asset) : asset × Option Err :=
  if a.symbol = x.symbol then
    let x1 : asset := { x with amount := wrap64 (x.amount + a.amount) }
    if -max_amount ≤ x1.amount then
      if x1.amount ≤ max_amount then (x1, none) else (x1, some .rangeError)
    else (x1, some .rangeError)
  else (x, some .symbolMismatch)

/-- `asset::operator-=`: checks the symbols match, then subtracts the amounts
with native 64-bit arithmetic, then checks the result range. -/
def subAssign (x a : asset) : asset × Option Err :=
  if a.symbol = x.symbol then
    let x1 : asset := { x with amount := wrap64 (x.amount - a.amount) }
    if -max_amount ≤ x1.amount then
      if x1.amount ≤ max_amount then (x1, none) else (x1, some .rangeError)
    else (x1, some .rangeError)
  else (x, some .symbolMismatch)

/-- `asset::operator*=(int64_t a)`: computes the product in an `int128_t`
intermediate, checks it against the range, then narrows to `int64_t`.
The receiver is written only after both checks pass. -/
def mulAssign (x : asset) (a : Int) : asset × Option Err :=
  let tmp := wrap128 (x.amount * a)
  if tmp ≤ max_amount then
    if -max_amount ≤ tmp then ({ x with amount := wrap64 tmp }, none)
    else (x, some .rangeError)
  else (x, some .rangeError)

/-- `asset::operator/=(int64_t a)`: checks the divisor is non-zero, then
checks for the `INT64_MIN / -1` overflow, then divides with C truncating
division. -/
def divAssign (x : asset) (a : Int) : asset × Option Err :=
  if a = 0 then (x, some .divideByZero)
  else if x.amount = int64Min ∧ a = -1 then (x, some .overflow)
  else ({ x with amount := Int.tdiv x.amount a }, none)

/-- The friend `operator/(const asset&, const asset&)`: checks the divisor
amount is non-zero FIRST, then checks the symbols match, then returns the
truncating quotient of the amounts. -/
def divAsset (a b : asset) : Except Err Int :=
  if b.amount = 0 then .error .divideByZero
  else if a.symbol = b.symbol then .ok (Int.tdiv a.amount b.amount)
  else .error .symbolMismatch

/-- `operator==` on assets: checks the symbols match, then compares amounts. -/
def eqChecked (a b : asset) : Except Err Bool :=
  if a.symbol = b.symbol then .ok (decide (a.amount = b.amount))
  else .error .symbolMismatch

/-- `operator!=` on assets: the logical negation of `operator==`. -/
def neChecked (a b : asset) : Except Err Bool :=
  match eqChecked a b with
  | .error e => .error e
  | .ok r => .ok (!r)

/-- `operator<` on assets: checks the symbols match, then compares amounts. -/
def ltChecked (a b : asset) : Except Err Bool :=
  if a.symbol = b.symbol then .ok (decide (a.amount < b.amount))
  else .error .symbolMismatch

/-- `operator<=` on assets: checks the symbols match, then compares amounts. -/
def leChecked (a b : asset) : Except Err Bool :=
  if a.symbol = b.symbol then .ok (decide (a.amount ≤ b.amount))
  else .error .symbolMismatch

/-- `operator>=` on assets: checks the symbols match, then compares amounts. -/
def geChecked (a b : asset) : Except Err Bool :=
  if a.symbol = b.symbol then .ok (decide (b.amount ≤ a.amount))
  else .error .symbolMismatch

/-- The digits of a fraction loop of `asset::to_string`: for
`i = p-1 .. 0`, `fraction[i] = (change % 10) + '0'; change /= 10`, so the
last character holds the least-significant digit. -/
def fracChars : Nat → Int → List Char
  | 0, _ => []
  | k + 1, c => fracChars k (Int.tdiv c 10) ++ [Char.ofNat ((Int.tmod c 10).toNat + 48)]

/-- Decimal digits of a natural number, most significant first (fuel-bounded
recursion). -/
def natDecChars : Nat → Nat → List Char
  | 0, _ => []
  | f + 1, m => if m = 0 then [] else natDecChars f (m / 10) ++ [Char.ofNat (m % 10 + 48)]

/-- Rendering of a signed 64-bit value by `snprintf`'s `%lld`. -/
def lldStr (x : Int) : String :=
  if x < 0 then "-" ++ String.mk (natDecChars 32 (-x).toNat)
  else if x = 0 then "0" else String.mk (natDecChars 32 x.toNat)

/-- The `p10 *= 10` loop of `asset::to_string`, run on a native `int64_t`. -/
def pow10wrap : Nat → Int
  | 0 => 1
  | k + 1 => wrap64 (pow10wrap k * 10)

/-- `asset::to_string`: computes `p10 = 10^precision`, sets `invert = -1` and
`negative = true` for a negative amount, takes the fraction digits from
`(amount % p10) * invert`, and formats with `snprintf` using the format
string `"-%lld.%s %s"` when negative and `"%lld.%s %s"` otherwise, passing
`amount / p10`, the fraction digits and the symbol code. -/
def to_string (x : asset) : String :=
  let p := x.symbol.precision
  let p10 := pow10wrap p
  let negative := decide (x.amount < 0)
  let invert : Int := if x.amount < 0 then -1 else 1
  let change := Int.tmod x.amount p10 * invert
  let fraction := String.mk (fracChars p change)
  (if negative then "-" else "") ++ lldStr (Int.tdiv x.amount p10) ++ "." ++
    fraction ++ " " ++ x.symbol.codeString

end asset

/-- The `extended_asset` struct: an asset plus the owning account. -/
structure extended_asset where
  quantity : asset
  contract : name
deriving DecidableEq

namespace extended_asset

/-- Unary `extended_asset::operator-`: negates the quantity, the contract
unchanged. -/
def negExt (e : extended_asset) : extended_asset := ⟨asset.negAsset e.quantity, e.contract⟩

/-- Friend `operator+` on extended assets: checks the contracts match, then
delegates to asset addition. -/
def addExt (a b : extended_asset) : Except Err extended_asset :=
  if a.contract = b.contract then
    match asset.addAssign a.quantity b.quantity with
    | (q, none) => .ok ⟨q, a.contract⟩
    | (_, some e) => .error e
  else .error .ownershipMismatch

/-- Friend `operator-` on extended assets: checks the contracts match, then
delegates to asset subtraction. -/
def subExt (a b : extended_asset) : Except Err extended_asset :=
  if a.contract = b.contract then
    match asset.subAssign a.quantity b.quantity with
    | (q, none) => .ok ⟨q, a.contract⟩
    | (_, some e) => .error e
  else .error .ownershipMismatch

/-- `operator+=` on extended assets at the memory level: checks the contracts
match, then runs `a.quantity += b.quantity` on the receiver's quantity. -/
def addAssignExt (a b : extended_asset) : extended_asset × Option Err :=
  if a.contract = b.contract then
    let r := asset.addAssign a.quantity b.quantity
    (⟨r.1, a.contract⟩, r.2)
  else (a, some .ownershipMismatch)

/-- `operator-=` on extended assets at the memory level: checks the contracts
match, then runs `a.quantity -= b.quantity` on the receiver's quantity. -/
def subAssignExt (a b : extended_asset) : extended_asset × Option Err :=
  if a.contract = b.contract then
    let r := asset.subAssign a.quantity b.quantity
    (⟨r.1, a.contract⟩, r.2)
  else (a, some .ownershipMismatch)

/-- `operator==` on extended assets: compares the `(quantity, contract)`
tuples elementwise with no ownership gate; the quantity comparison delegates
to the checked asset `operator==` (which can fail on a symbol mismatch), the
contract comparison is a plain equality. -/
def eqExt (a b : extended_asset) : Except Err Bool :=
  match asset.eqChecked a.quantity b.quantity with
  | .error e => .error e
  | .ok q => .ok (q && decide (a.contract = b.contract))

/-- `operator!=` on extended assets: the negation of the tuple comparison,
with no ownership gate. -/
def neExt (a b : extended_asset) : Except Err Bool :=
  match eqExt a b with
  | .error e => .error e
  | .ok r => .ok (!r)

/-- `operator<` on extended assets: checks the contracts match, then
delegates to the asset comparison. -/
def ltExt (a b : extended_asset) : Except Err Bool :=
  if a.contract = b.contract then asset.ltChecked a.quantity b.quantity
  else .error .ownershipMismatch

/-- `operator<=` on extended assets: checks the contracts match, then
delegates to the asset comparison. -/
def leExt (a b : extended_asset) : Except Err Bool :=
  if a.contract = b.contract then asset.leChecked a.quantity b.quantity
  else .error .ownershipMismatch

/-- `operator>=` on extended assets: checks the contracts match, then
delegates to the asset comparison. -/
def geExt (a b : extended_asset) : Except Err Bool :=
  if a.contract = b.contract then asset.geChecked a.quantity b.quantity
  else .error .ownershipMismatch

end extended_asset

/-- Modelled from the spec: the codec (`serialize.hpp` / the datastream) is
not under `src/`; an unsigned 64-bit word is encoded as 8 bytes, least
significant first. -/
def encU64 (n : Nat) : List Nat :=
  [n % 256, n / 256 % 256, n / 256 ^ 2 % 256, n / 256 ^ 3 % 256,
   n / 256 ^ 4 % 256, n / 256 ^ 5 % 256, n / 256 ^ 6 % 256, n / 256 ^ 7 % 256]

/-- Modelled from the spec: the stream decoder for an unsigned 64-bit word
consumes 8 bytes, least significant first, and returns the remaining
stream. -/
def decU64 : List Nat → Option (Nat × List Nat)
  | b0 :: b1 :: b2 :: b3 :: b4 :: b5 :: b6 :: b7 :: rest =>
      some (b0 + 256 * b1 + 256 ^ 2 * b2 + 256 ^ 3 * b3 + 256 ^ 4 * b4 +
        256 ^ 5 * b5 + 256 ^ 6 * b6 + 256 ^ 7 * b7, rest)
  | _ => none

/-- Two's-complement image of a signed 64-bit value as an unsigned word. -/
def toU64 (x : Int) : Nat := (x % 2 ^ 64).toNat

/-- Signed reading of an unsigned 64-bit word. -/
def fromU64 (n : Nat) : Int := if n < 2 ^ 63 then (n : Int) else (n : Int) - 2 ^ 64

/-- Encoding of an asset per `EOSLIB_SERIALIZE(asset, (amount)(symbol))`:
the amount as an 8-byte signed little-endian integer, then the symbol's own
8-byte word. -/
def encAsset (x : asset) : List Nat :=
  encU64 (toU64 x.amount) ++ encU64 x.symbol.value

/-- Stream decoding of an asset: the amount, then the symbol, in that order. -/
def decAsset (bs : List Nat) : Option (asset × List Nat) :=
  match decU64 bs with
  | none => none
  | some (a, r1) =>
      match decU64 r1 with
      | none => none
      | some (s, r2) => some (⟨fromU64 a, ⟨s⟩⟩, r2)

/-- Encoding of an extended asset per
`EOSLIB_SERIALIZE(extended_asset, (quantity)(contract))`: the quantity's
asset encoding, then the contract identity's fixed 8-byte word. -/
def encExtended (e : extended_asset) : List Nat :=
  encAsset e.quantity ++ encU64 e.contract.value

/-- Stream decoding of an extended asset: the quantity, then the contract. -/
def decExtended (bs : List Nat) : Option (extended_asset × List Nat) :=
  match decAsset bs with
  | none => none
  | some (q, r1) =>
      match decU64 r1 with
      | none => none
      | some (c, r2) => some (⟨q, ⟨c⟩⟩, r2)

/-- The symbol with precision 2 and code `SYS`. -/
def symSYS : symbol := ⟨2 + 83 * 256 + 89 * 256 ^ 2 + 83 * 256 ^ 3⟩

/-- The symbol with precision 4 and code `TOK`. -/
def symTOK : symbol := ⟨4 + 84 * 256 + 79 * 256 ^ 2 + 75 * 256 ^ 3⟩

/-- The symbol with precision 0 and code `A`. -/
def symA : symbol := ⟨65 * 256⟩

/-- The symbol with precision 0 and code `B`. -/
def symB : symbol := ⟨66 * 256⟩

lemma wrap64_eq_self {x : Int} (h1 : -(2 ^ 63) ≤ x) (h2 : x < 2 ^ 63) :
    wrap64 x = x := by
  unfold wrap64; omega

set_option maxRecDepth 4000 in
lemma wrap128_eq_self {x : Int} (h1 : -(2 ^ 127) ≤ x) (h2 : x < 2 ^ 127) :
    wrap128 x = x := by
  unfold wrap128; omega

/-- C1: For same-symbol assets with both amounts in `[-max_amount, max_amount]`,
`operator+=` and `operator-=` fail with a range error exactly when the true
mathematical sum (difference) lies outside `[-max_amount, max_amount]`, and
otherwise store exactly that true sum (difference): under the precondition
the native 64-bit addition never wraps, so the post-hoc bound check is
exact. -/
theorem add_sub_range_exact (a b : asset)
    (hs : b.symbol = a.symbol)
    (ha : -asset.max_amount ≤ a.amount ∧ a.amount ≤ asset.max_amount)
    (hb : -asset.max_amount ≤ b.amount ∧ b.amount ≤ asset.max_amount) :
    asset.addAssign a b =
      ({ a with amount := a.amount + b.amount },
        if -asset.max_amount ≤ a.amount + b.amount ∧ a.amount + b.amount ≤ asset.max_amount
        then none else some Err.rangeError) ∧
    asset.subAssign a b =
      ({ a with amount := a.amount - b.amount },
        if -asset.max_amount ≤ a.amount - b.amount ∧ a.amount - b.amount ≤ asset.max_amount
        then none else some Err.rangeError) := by
  unfold asset.max_amount at ha hb
  have hw1 : wrap64 (a.amount + b.amount) = a.amount + b.amount :=
    wrap64_eq_self (by omega) (by omega)
  have hw2 : wrap64 (a.amount - b.amount) = a.amount - b.amount :=
    wrap64_eq_self (by omega) (by omega)
  constructor
  · unfold asset.addAssign
    rw [if_pos hs, hw1]
    split_ifs <;> simp_all
  · unfold asset.subAssign
    rw [if_pos hs, hw2]
    split_ifs <;> simp_all

/-- Witness for C1 at concrete inputs: adding 1 to an asset holding
`max_amount` fails the range check with the receiver's memory holding the
true sum, while subtracting 1 succeeds with the true difference. -/
theorem add_sub_range_exact_witness :
    asset.addAssign ⟨asset.max_amount, symA⟩ ⟨1, symA⟩ =
      (⟨asset.max_amount + 1, symA⟩, some Err.rangeError) ∧
    asset.subAssign ⟨asset.max_amount, symA⟩ ⟨1, symA⟩ =
      (⟨asset.max_amount - 1, symA⟩, none) := by
  have h := add_sub_range_exact ⟨asset.max_amount, symA⟩ ⟨1, symA⟩ rfl
    (by decide) (by decide)
  exact ⟨h.1.trans (by decide), h.2.trans (by decide)⟩

/-- C2 counterexample: `set_amount` performs no symbol-validity check.  On an
asset whose symbol is the invalid word 0, `set_amount` with an in-range
amount succeeds instead of failing with an invalid-symbol error as the claim
requires. -/
theorem set_amount_skips_symbol_cex :
    symbol.is_valid ⟨0⟩ = false ∧
    asset.set_amount ⟨0, ⟨0⟩⟩ 5 = (⟨5, ⟨0⟩⟩, none) := by
  decide

/-- C2 amended: `set_amount(a)` checks only the amount range — it fails with
a range error exactly when `|a| > max_amount` and can never fail with an
invalid-symbol error — and it writes the new amount into the receiver before
the check, so the receiver's memory holds `a` even when the check fails. -/
theorem set_amount_range_only (x : asset) (a : Int) :
    asset.set_amount x a =
      ({ x with amount := a },
        if -asset.max_amount ≤ a ∧ a ≤ asset.max_amount then none
        else some Err.rangeError) ∧
    (asset.set_amount x a).2 ≠ some Err.invalidSymbol := by
  by_cases h : -asset.max_amount ≤ a ∧ a ≤ asset.max_amount <;>
    simp [asset.set_amount, asset.is_amount_within_range, h]

/-- C3 counterexample: `extended_asset` equality and inequality perform no
ownership gate: on two extended assets with the same symbol but different
contracts they return a boolean instead of failing with an ownership
mismatch as the claim requires. -/
theorem ext_eq_no_ownership_gate_cex :
    (⟨1⟩ : name) ≠ (⟨2⟩ : name) ∧
    extended_asset.eqExt ⟨⟨1, symA⟩, ⟨1⟩⟩ ⟨⟨1, symA⟩, ⟨2⟩⟩ = .ok false ∧
    extended_asset.neExt ⟨⟨1, symA⟩, ⟨1⟩⟩ ⟨⟨1, symA⟩, ⟨2⟩⟩ = .ok true := by
  decide

/-- C3 amended: only `<`, `<=` and `>=` gate on ownership (failing with an
ownership mismatch when the contracts differ and delegating to the asset
comparison otherwise); `==` and `!=` perform no ownership gate — they compare
the (quantity, contract) tuple, delegating the quantity comparison to the
checked asset equality (so a symbol mismatch still fails) and combining it
with a plain contract equality, `!=` being the negation of `==`. -/
theorem ext_compare_gates (a b : extended_asset) :
    (a.contract ≠ b.contract →
      extended_asset.ltExt a b = .error Err.ownershipMismatch ∧
      extended_asset.leExt a b = .error Err.ownershipMismatch ∧
      extended_asset.geExt a b = .error Err.ownershipMismatch) ∧
    (a.contract = b.contract →
      extended_asset.ltExt a b = asset.ltChecked a.quantity b.quantity ∧
      extended_asset.leExt a b = asset.leChecked a.quantity b.quantity ∧
      extended_asset.geExt a b = asset.geChecked a.quantity b.quantity) ∧
    extended_asset.eqExt a b =
      (asset.eqChecked a.quantity b.quantity).map
        (fun q => q && decide (a.contract = b.contract)) ∧
    extended_asset.neExt a b = (extended_asset.eqExt a b).map (fun r => !r) := by
  refine ⟨fun h => ?_, fun h => ?_, ?_, ?_⟩
  · unfold extended_asset.ltExt extended_asset.leExt extended_asset.geExt
    simp [h]
  · unfold extended_asset.ltExt extended_asset.leExt extended_asset.geExt
    simp [h]
  · unfold extended_asset.eqExt
    cases asset.eqChecked a.quantity b.quantity <;> simp [Except.map]
  · unfold extended_asset.neExt
    cases extended_asset.eqExt a b <;> simp [Except.map]

/-- Witness for C3 amended at concrete inputs: with different contracts the
ordering comparisons fail with an ownership mismatch while equality returns
a boolean. -/
theorem ext_compare_gates_witness :
    extended_asset.ltExt ⟨⟨1, symA⟩, ⟨1⟩⟩ ⟨⟨2, symA⟩, ⟨2⟩⟩ =
      .error Err.ownershipMismatch ∧
    extended_asset.leExt ⟨⟨1, symA⟩, ⟨1⟩⟩ ⟨⟨2, symA⟩, ⟨2⟩⟩ =
      .error Err.ownershipMismatch ∧
    extended_asset.geExt ⟨⟨1, symA⟩, ⟨1⟩⟩ ⟨⟨2, symA⟩, ⟨2⟩⟩ =
      .error Err.ownershipMismatch ∧
    extended_asset.eqExt ⟨⟨1, symA⟩, ⟨1⟩⟩ ⟨⟨2, symA⟩, ⟨2⟩⟩ = .ok false := by
  have h := ext_compare_gates ⟨⟨1, symA⟩, ⟨1⟩⟩ ⟨⟨2, symA⟩, ⟨2⟩⟩
  have h1 := h.1 (by decide)
  exact ⟨h1.1, h1.2.1, h1.2.2, h.2.2.1.trans (by decide)⟩

/-- C4 counterexample: in asset-by-asset division the divide-by-zero check
runs before the symbol check: with different symbols and a zero divisor the
operation fails with divide-by-zero, not with the symbol mismatch the claim
requires. -/
theorem div_asset_zero_before_symbol_cex :
    symA ≠ symB ∧
    asset.divAsset ⟨1, symA⟩ ⟨0, symB⟩ = .error Err.divideByZero := by
  decide

/-- C4 amended: in asset-by-asset division the divide-by-zero check precedes
the symbol check: a zero divisor amount fails with divide-by-zero regardless
of the symbols; a symbol mismatch fails only when the divisor is non-zero;
otherwise the result is the truncating integer quotient, whose magnitude is
the floor of the quotient of magnitudes. -/
theorem div_asset_check_order (a b : asset) :
    (b.amount = 0 → asset.divAsset a b = .error Err.divideByZero) ∧
    (b.amount ≠ 0 → a.symbol ≠ b.symbol →
      asset.divAsset a b = .error Err.symbolMismatch) ∧
    (b.amount ≠ 0 → a.symbol = b.symbol →
      asset.divAsset a b = .ok (Int.tdiv a.amount b.amount) ∧
      (Int.tdiv a.amount b.amount).natAbs = a.amount.natAbs / b.amount.natAbs) := by
  refine ⟨fun h0 => ?_, fun h0 hs => ?_, fun h0 hs => ⟨?_, Int.natAbs_tdiv _ _⟩⟩
  · unfold asset.divAsset; simp [h0]
  · unfold asset.divAsset; simp [h0, hs]
  · unfold asset.divAsset; simp [h0, hs]

/-- Witness for C4 amended at concrete inputs: zero divisor with mismatched
symbols gives divide-by-zero; non-zero divisor with mismatched symbols gives
the symbol mismatch; same symbols give the truncating quotient. -/
theorem div_asset_check_order_witness :
    asset.divAsset ⟨1, symA⟩ ⟨0, symB⟩ = .error Err.divideByZero ∧
    asset.divAsset ⟨1, symA⟩ ⟨2, symB⟩ = .error Err.symbolMismatch ∧
    asset.divAsset ⟨-7, symA⟩ ⟨2, symA⟩ = .ok (-3) := by
  have h1 := (div_asset_check_order ⟨1, symA⟩ ⟨0, symB⟩).1 rfl
  have h2 := (div_asset_check_order ⟨1, symA⟩ ⟨2, symB⟩).2.1 (by decide) (by decide)
  have h3 := (div_asset_check_order ⟨-7, symA⟩ ⟨2, symA⟩).2.2 (by decide) rfl
  exact ⟨h1, h2, h3.1.trans (by decide)⟩

/-- C5: For an asset with amount in `[-max_amount, max_amount]` and any
64-bit integer scale, `operator*=` computes the product exactly in its
128-bit intermediate (the widening loses nothing), fails with a range error
exactly when the true product lies outside `[-max_amount, max_amount]`, and
otherwise stores the exact mathematical product, the narrowing to 64 bits
losing nothing. -/
theorem mul_widened_exact (x : asset) (s : Int)
    (hx : -asset.max_amount ≤ x.amount ∧ x.amount ≤ asset.max_amount)
    (hs : -(2 ^ 63) ≤ s ∧ s < 2 ^ 63) :
    asset.mulAssign x s =
      if -asset.max_amount ≤ x.amount * s ∧ x.amount * s ≤ asset.max_amount
      then ({ x with amount := x.amount * s }, none)
      else (x, some Err.rangeError) := by
  have hax : |x.amount| ≤ 2 ^ 62 - 1 := by
    unfold asset.max_amount at hx; rw [abs_le]; omega
  have has : |s| ≤ 2 ^ 63 := by rw [abs_le]; omega
  have hprod : |x.amount * s| ≤ (2 ^ 62 - 1) * 2 ^ 63 := by
    rw [abs_mul]
    exact mul_le_mul hax has (abs_nonneg _) (by norm_num)
  have hcst : ((2 : Int) ^ 62 - 1) * 2 ^ 63 < 2 ^ 127 := by norm_num
  have hb := abs_le.mp hprod
  have hw : wrap128 (x.amount * s) = x.amount * s :=
    wrap128_eq_self (by omega) (by omega)
  simp only [asset.mulAssign]
  rw [hw]
  by_cases hc : -asset.max_amount ≤ x.amount * s ∧ x.amount * s ≤ asset.max_amount
  · have hw64 : wrap64 (x.amount * s) = x.amount * s := by
      unfold asset.max_amount at hc
      exact wrap64_eq_self (by omega) (by omega)
    rw [if_pos hc, if_pos hc.2, if_pos hc.1, hw64]
  · rw [if_neg hc]
    by_cases h1 : x.amount * s ≤ asset.max_amount
    · have h2 : ¬(-asset.max_amount ≤ x.amount * s) := fun h => hc ⟨h, h1⟩
      rw [if_pos h1, if_neg h2]
    · rw [if_neg h1]

/-- Witness for C5 at a concrete input: scaling an asset holding `max_amount`
by 2 fails with a range error instead of wrapping, the receiver unchanged. -/
theorem mul_widened_exact_witness :
    asset.mulAssign ⟨asset.max_amount, symA⟩ 2 =
      (⟨asset.max_amount, symA⟩, some Err.rangeError) := by
  have h := mul_widened_exact ⟨asset.max_amount, symA⟩ 2 (by decide) (by decide)
  exact h.trans (by decide)

/-- C6: `operator/=` with an integer divisor fails with divide-by-zero
exactly when the divisor is 0, fails with the signed-division overflow
exactly when the amount is the most negative 64-bit value and the divisor is
-1, and otherwise stores the toward-zero truncating quotient, whose magnitude
is the floor of the quotient of magnitudes (not floor division); the checks
run in that order. -/
theorem div_int_check_order (x : asset) (s : Int) :
    (s = 0 → asset.divAssign x s = (x, some Err.divideByZero)) ∧
    (x.amount = int64Min ∧ s = -1 → asset.divAssign x s = (x, some Err.overflow)) ∧
    (s ≠ 0 → ¬(x.amount = int64Min ∧ s = -1) →
      asset.divAssign x s = ({ x with amount := Int.tdiv x.amount s }, none) ∧
      (Int.tdiv x.amount s).natAbs = x.amount.natAbs / s.natAbs) := by
  refine ⟨fun h0 => ?_, fun hov => ?_, fun h0 hn => ⟨?_, Int.natAbs_tdiv _ _⟩⟩
  · unfold asset.divAssign; simp [h0]
  · unfold asset.divAssign; simp [hov.1, hov.2]
  · unfold asset.divAssign; simp [h0, hn]

/-- Witness for C6 at concrete inputs: division by 0 fails with
divide-by-zero, the most negative value divided by -1 fails with the overflow
error, and `-7 / 2` gives the toward-zero quotient `-3` (floor division would
give `-4`). -/
theorem div_int_check_order_witness :
    asset.divAssign ⟨5, symA⟩ 0 = (⟨5, symA⟩, some Err.divideByZero) ∧
    asset.divAssign ⟨int64Min, symA⟩ (-1) = (⟨int64Min, symA⟩, some Err.overflow) ∧
    asset.divAssign ⟨-7, symA⟩ 2 = (⟨-3, symA⟩, none) := by
  have h1 := (div_int_check_order ⟨5, symA⟩ 0).1 rfl
  have h2 := (div_int_check_order ⟨int64Min, symA⟩ (-1)).2.1 ⟨rfl, rfl⟩
  have h3 := ((div_int_check_order ⟨-7, symA⟩ 2).2.2 (by decide) (by decide)).1
  exact ⟨h1, h2, h3.trans (by decide)⟩

/-- C7 counterexample: a failing `set_amount` is not atomic at the memory
level: it writes the out-of-range amount into the receiver before the range
check fails, so the receiver's state after the failing call differs from its
state before it. -/
theorem mutate_before_check_cex :
    (asset.set_amount ⟨0, symA⟩ (2 ^ 62)).2 = some Err.rangeError ∧
    (asset.set_amount ⟨0, symA⟩ (2 ^ 62)).1 ≠ ⟨0, symA⟩ := by
  decide

/-- C7 amended: `operator*=` and `operator/=` leave the receiver unchanged on
every failure, and the symbol gate of `operator+=`/`operator-=` and the
ownership gate of the extended-asset `operator+=`/`operator-=` fail before
any mutation; but `operator+=`, `operator-=` and `set_amount` write the new
amount into the receiver before the range check runs, so on a range failure
the receiver's memory is mutated — the mutated value is unobservable only
because every failure aborts the entire invocation. -/
theorem inplace_failure_states (x a : asset) (s : Int) (e1 e2 : extended_asset) :
    ((asset.mulAssign x s).2.isSome → (asset.mulAssign x s).1 = x) ∧
    ((asset.divAssign x s).2.isSome → (asset.divAssign x s).1 = x) ∧
    (a.symbol ≠ x.symbol →
      asset.addAssign x a = (x, some Err.symbolMismatch) ∧
      asset.subAssign x a = (x, some Err.symbolMismatch)) ∧
    (e1.contract ≠ e2.contract →
      extended_asset.addAssignExt e1 e2 = (e1, some Err.ownershipMismatch) ∧
      extended_asset.subAssignExt e1 e2 = (e1, some Err.ownershipMismatch)) ∧
    (a.symbol = x.symbol →
      (asset.addAssign x a).1.amount = wrap64 (x.amount + a.amount) ∧
      (asset.subAssign x a).1.amount = wrap64 (x.amount - a.amount)) ∧
    (asset.set_amount x s).1.amount = s := by
  refine ⟨?_, ?_, fun h => ⟨?_, ?_⟩, fun h => ⟨?_, ?_⟩, fun h => ⟨?_, ?_⟩, rfl⟩
  · simp only [asset.mulAssign]
    split_ifs <;> simp
  · unfold asset.divAssign
    split_ifs <;> simp
  · unfold asset.addAssign
    rw [if_neg h]
  · unfold asset.subAssign
    rw [if_neg h]
  · unfold extended_asset.addAssignExt
    rw [if_neg h]
  · unfold extended_asset.subAssignExt
    rw [if_neg h]
  · simp only [asset.addAssign]
    rw [if_pos h]
    split_ifs <;> rfl
  · simp only [asset.subAssign]
    rw [if_pos h]
    split_ifs <;> rfl

/-- Witness for C7 amended at concrete inputs: a failing `*=` and `/=` leave
the receiver unchanged, gate failures of `+=` leave it unchanged, and a
range-failing `+=` has already stored the wrapped sum. -/
theorem inplace_failure_states_witness :
    (asset.mulAssign ⟨asset.max_amount, symA⟩ 2).1 = ⟨asset.max_amount, symA⟩ ∧
    (asset.divAssign ⟨5, symA⟩ 0).1 = ⟨5, symA⟩ ∧
    asset.addAssign ⟨1, symA⟩ ⟨1, symB⟩ = (⟨1, symA⟩, some Err.symbolMismatch) ∧
    extended_asset.addAssignExt ⟨⟨1, symA⟩, ⟨1⟩⟩ ⟨⟨1, symA⟩, ⟨2⟩⟩ =
      (⟨⟨1, symA⟩, ⟨1⟩⟩, some Err.ownershipMismatch) ∧
    (asset.addAssign ⟨asset.max_amount, symA⟩ ⟨1, symA⟩).1.amount =
      asset.max_amount + 1 := by
  have h1 := (inplace_failure_states ⟨asset.max_amount, symA⟩ ⟨1, symB⟩ 2
    ⟨⟨1, symA⟩, ⟨1⟩⟩ ⟨⟨1, symA⟩, ⟨2⟩⟩).1 (by decide)
  have h2 := (inplace_failure_states ⟨5, symA⟩ ⟨1, symB⟩ 0
    ⟨⟨1, symA⟩, ⟨1⟩⟩ ⟨⟨1, symA⟩, ⟨2⟩⟩).2.1 (by decide)
  have h3 := ((inplace_failure_states ⟨1, symA⟩ ⟨1, symB⟩ 0
    ⟨⟨1, symA⟩, ⟨1⟩⟩ ⟨⟨1, symA⟩, ⟨2⟩⟩).2.2.1 (by decide)).1
  have h4 := ((inplace_failure_states ⟨1, symA⟩ ⟨1, symB⟩ 0
    ⟨⟨1, symA⟩, ⟨1⟩⟩ ⟨⟨1, symA⟩, ⟨2⟩⟩).2.2.2.1 (by decide)).1
  have h5 := ((inplace_failure_states ⟨asset.max_amount, symA⟩ ⟨1, symA⟩ 0
    ⟨⟨1, symA⟩, ⟨1⟩⟩ ⟨⟨1, symA⟩, ⟨2⟩⟩).2.2.2.2.1 rfl).1
  exact ⟨h1, h2, h3, h4, h5.trans (by decide)⟩

/-- C8: every successful operation of the core yields an asset satisfying
the invariant `|amount| ≤ max_amount` and `symbol.is_valid()`: construction
unconditionally, and `set_amount`, negation (which has no re-check — the
range is symmetric), addition, subtraction, scaling and integer division
whenever the receiver satisfies the invariant. -/
theorem invariant_preserved :
    (∀ (a : Int) (s : Eocs.symbol) (r : asset),
      asset.construct a s = .ok r → r.is_valid = true) ∧
    (∀ (x : asset) (a : Int), x.is_valid = true →
      (asset.set_amount x a).2 = none → (asset.set_amount x a).1.is_valid = true) ∧
    (∀ x : asset, x.is_valid = true → (asset.negAsset x).is_valid = true) ∧
    (∀ x a : asset, x.is_valid = true →
      (asset.addAssign x a).2 = none → (asset.addAssign x a).1.is_valid = true) ∧
    (∀ x a : asset, x.is_valid = true →
      (asset.subAssign x a).2 = none → (asset.subAssign x a).1.is_valid = true) ∧
    (∀ (x : asset) (k : Int), x.is_valid = true →
      (asset.mulAssign x k).2 = none → (asset.mulAssign x k).1.is_valid = true) ∧
    (∀ (x : asset) (k : Int), x.is_valid = true →
      (asset.divAssign x k).2 = none → (asset.divAssign x k).1.is_valid = true) := by
  refine ⟨?_, ?_, ?_, ?_, ?_, ?_, ?_⟩
  · intro a s r h
    simp only [asset.construct] at h
    split_ifs at h with h1 h2
    cases h
    simp only [asset.is_valid, Bool.and_eq_true]
    exact ⟨h1, h2⟩
  · intro x a hx hok
    simp only [asset.set_amount] at hok ⊢
    split_ifs at hok with h1
    simp only [asset.is_valid, Bool.and_eq_true] at hx ⊢
    exact ⟨h1, hx.2⟩
  · intro x hx
    simp only [asset.is_valid, asset.is_amount_within_range, asset.negAsset,
      Bool.and_eq_true, decide_eq_true_eq] at hx ⊢
    obtain ⟨⟨ha1, ha2⟩, hsym⟩ := hx
    unfold asset.max_amount at ha1 ha2 ⊢
    refine ⟨?_, hsym⟩
    rw [wrap64_eq_self (by omega) (by omega)]
    omega
  · intro x a hx hok
    simp only [asset.is_valid, Bool.and_eq_true] at hx
    simp only [asset.addAssign] at hok ⊢
    split_ifs at hok ⊢ with h1 h2 h3
    exact show ({ x with amount := wrap64 (x.amount + a.amount) } : asset).is_valid = true by
      simp only [asset.is_valid, asset.is_amount_within_range, Bool.and_eq_true,
        decide_eq_true_eq]
      exact ⟨⟨h2, h3⟩, hx.2⟩
  · intro x a hx hok
    simp only [asset.is_valid, Bool.and_eq_true] at hx
    simp only [asset.subAssign] at hok ⊢
    split_ifs at hok ⊢ with h1 h2 h3
    exact show ({ x with amount := wrap64 (x.amount - a.amount) } : asset).is_valid = true by
      simp only [asset.is_valid, asset.is_amount_within_range, Bool.and_eq_true,
        decide_eq_true_eq]
      exact ⟨⟨h2, h3⟩, hx.2⟩
  · intro x k hx hok
    simp only [asset.is_valid, Bool.and_eq_true] at hx
    simp only [asset.mulAssign] at hok ⊢
    split_ifs at hok ⊢ with h1 h2
    have hw : wrap64 (wrap128 (x.amount * k)) = wrap128 (x.amount * k) := by
      unfold asset.max_amount at h1 h2
      exact wrap64_eq_self (by omega) (by omega)
    exact show ({ x with amount := wrap64 (wrap128 (x.amount * k)) } : asset).is_valid = true by
      simp only [asset.is_valid, asset.is_amount_within_range, Bool.and_eq_true,
        decide_eq_true_eq, hw]
      exact ⟨⟨h2, h1⟩, hx.2⟩
  · intro x k hx hok
    simp only [asset.is_valid, asset.is_amount_within_range, Bool.and_eq_true,
      decide_eq_true_eq] at hx
    simp only [asset.divAssign] at hok ⊢
    split_ifs at hok ⊢ with h1 h2
    have ht : (Int.tdiv x.amount k).natAbs = x.amount.natAbs / k.natAbs :=
      Int.natAbs_tdiv x.amount k
    have hd : x.amount.natAbs / k.natAbs ≤ x.amount.natAbs := Nat.div_le_self _ _
    obtain ⟨⟨ha1, ha2⟩, hsym⟩ := hx
    exact show ({ x with amount := Int.tdiv x.amount k } : asset).is_valid = true by
      simp only [asset.is_valid, asset.is_amount_within_range, Bool.and_eq_true,
        decide_eq_true_eq]
      refine ⟨?_, hsym⟩
      unfold asset.max_amount at ha1 ha2 ⊢
      omega

/-- Witness for C8 at concrete inputs: a constructed asset is valid, and
negation and truncating division of a valid asset keep it valid. -/
theorem invariant_preserved_witness :
    asset.is_valid ⟨5, symA⟩ = true ∧
    asset.is_valid (asset.negAsset ⟨5, symA⟩) = true ∧
    asset.is_valid (asset.divAssign ⟨-7, symA⟩ 2).1 = true := by
  have h1 := invariant_preserved.1 5 symA ⟨5, symA⟩ (by decide)
  have h2 := invariant_preserved.2.2.1 ⟨5, symA⟩ h1
  have h3 := invariant_preserved.2.2.2.2.2.2 ⟨-7, symA⟩ 2 (by decide) (by decide)
  exact ⟨h1, h2, h3⟩

set_option maxRecDepth 10000 in
/-- C9: `to_string` of the asset with amount -123456 and the valid symbol
with precision 4 and code `TOK` renders with TWO leading minus signs — the
explicit sign prefix of the negative branch plus the sign that `%lld` prints
for the negative integer part `amount / 10^precision = -12` — refuting the
claim that a negative amount produces exactly one leading minus; the two
examples named by the spec, whose integer parts do not go negative, do hold. -/
theorem to_string_double_minus :
    asset.to_string ⟨-123456, symTOK⟩ = "--12.3456 TOK" ∧
    symbol.is_valid symTOK = true ∧
    asset.to_string ⟨-5, symSYS⟩ = "-0.05 SYS" ∧
    asset.to_string ⟨100000, symTOK⟩ = "10.0000 TOK" := by
  refine ⟨?_, ?_, ?_, ?_⟩ <;> rfl

/-- Round-trip of the 8-byte little-endian word codec. -/
lemma decU64_encU64 (n : Nat) (rest : List Nat) (h : n < 2 ^ 64) :
    decU64 (encU64 n ++ rest) = some (n, rest) := by
  simp only [encU64, List.cons_append, List.nil_append, decU64,
    Option.some.injEq, Prod.mk.injEq]
  refine ⟨by omega, ?_⟩
  simp

/-- Signed 64-bit values survive the unsigned two's-complement image. -/
lemma fromU64_toU64 {x : Int} (h1 : -(2 ^ 63) ≤ x) (h2 : x < 2 ^ 63) :
    fromU64 (toU64 x) = x := by
  unfold fromU64 toU64; omega

/-- The unsigned image of any integer fits in 64 bits. -/
lemma toU64_lt (x : Int) : toU64 x < 2 ^ 64 := by
  unfold toU64; omega

/-- Stream round-trip for the asset encoding, for any following bytes. -/
lemma decAsset_encAsset (x : asset) (rest : List Nat)
    (ha1 : -(2 ^ 63) ≤ x.amount) (ha2 : x.amount < 2 ^ 63)
    (hs : x.symbol.value < 2 ^ 64) :
    decAsset (encAsset x ++ rest) = some (x, rest) := by
  unfold decAsset encAsset
  rw [List.append_assoc]
  simp only [decU64_encU64 (toU64 x.amount) (encU64 x.symbol.value ++ rest) (toU64_lt _),
    decU64_encU64 x.symbol.value rest hs]
  rw [fromU64_toU64 ha1 ha2]

/-- C10: the binary encoding of an asset is its amount as an 8-byte signed
little-endian integer followed by the symbol's own 8-byte word, the encoding
of an extended asset is the quantity's asset encoding followed by the
contract identity, and decoding inverts encoding exactly on every valid
asset and extended asset. -/
theorem serialize_roundtrip (x : asset) (e : extended_asset)
    (hx : asset.is_valid x = true)
    (hq : asset.is_valid e.quantity = true)
    (hc : e.contract.value < 2 ^ 64) :
    decAsset (encAsset x) = some (x, []) ∧
    decExtended (encExtended e) = some (e, []) := by
  simp only [asset.is_valid, asset.is_amount_within_range, symbol.is_valid,
    Bool.and_eq_true, decide_eq_true_eq] at hx hq
  obtain ⟨⟨hx1, hx2⟩, ⟨⟨hxv, _⟩, _⟩, _⟩ := hx
  obtain ⟨⟨hq1, hq2⟩, ⟨⟨hqv, _⟩, _⟩, _⟩ := hq
  unfold asset.max_amount at hx1 hx2 hq1 hq2
  constructor
  · have h := decAsset_encAsset x [] (by omega) (by omega) hxv
    rw [List.append_nil] at h
    exact h
  · unfold decExtended encExtended
    have h := decU64_encU64 e.contract.value [] hc
    rw [List.append_nil] at h
    simp only [decAsset_encAsset e.quantity (encU64 e.contract.value)
      (by omega) (by omega) hqv, h]

/-- Witness for C10 at concrete inputs: a concrete asset and extended asset
survive the encode/decode round trip. -/
theorem serialize_roundtrip_witness :
    decAsset (encAsset ⟨-5, symSYS⟩) = some (⟨-5, symSYS⟩, []) ∧
    decExtended (encExtended ⟨⟨-5, symSYS⟩, ⟨77⟩⟩) =
      some (⟨⟨-5, symSYS⟩, ⟨77⟩⟩, []) :=
  serialize_roundtrip ⟨-5, symSYS⟩ ⟨⟨-5, symSYS⟩, ⟨77⟩⟩
    (by decide) (by decide) (by decide)

end Eocs
